import Mathlib

/-!
Verification development for the sun_thing repository.

The UV-timeline functions (merge/dedup step of getUVForecast, groupUVDataByIndex,
getFallbackUVData, all in the UV service source file) are embedded as computable
functions over rational UV values and natural-number times counted in minutes of
local time (the JS code holds Date objects in ms; every quantity the embedded
functions inspect is a whole minute).  Date.getHours() is time / 60 % 24 and
Date.getMinutes() is time % 60; Date.getDate() is modelled as time / 1440 + 1,
i.e. times are taken inside one calendar month, which covers the at-most-48-hour
windows the code builds.  JS Array.prototype.sort with comparator a.time - b.time
is a stable sort by time and is embedded as List.insertionSort, which is stable.

The astronomical functions (calculations.js) are embedded over the reals:
Math.sin/tan/acos become Real.sin/tan/arccos, Math.round becomes round.
Math.acos returns NaN outside [-1, 1]; since every field of the day-length
record is contaminated by that NaN, estimateDayLength is embedded with result
type Option DayLength, none standing for the NaN-valued record, and the
NaN-propagation rule that any comparison with NaN is false is reflected where
findMatchingDayLength consumes the value.  Dates are modelled as a day number
plus milliseconds within the day, over years of 365 days (the calendar detail
the claims depend on is only the day-of-year / time-of-day split).
-/

namespace SunThing

/-- One hourly UV sample: the merge step of getUVForecast builds records
with a time (a Date, here minutes of local time) and a uv value. -/
structure Sample where
  time : ℕ
  uv : ℚ
deriving DecidableEq, Repr

/-- The dedup key of the merge step: the template string
dayOfMonth_hourOfDay built from getDate() and getHours(). -/
def hourKey (s : Sample) : ℕ × ℕ :=
  (s.time / 1440 + 1, s.time / 60 % 24)

/-- Boolean test for a given dedup key, used to phrase filter statements. -/
def keyIs (k : ℕ × ℕ) (s : Sample) : Bool :=
  decide (hourKey s = k)

/-- The sort comparator a.time - b.time of the merge step, as a relation. -/
def timeLE (a b : Sample) : Prop :=
  a.time ≤ b.time

instance : DecidableRel timeLE := fun a b => inferInstanceAs (Decidable (a.time ≤ b.time))

instance : IsTotal Sample timeLE := ⟨fun a b => Nat.le_total a.time b.time⟩

instance : IsTrans Sample timeLE := ⟨fun _ _ _ h1 h2 => Nat.le_trans h1 h2⟩

/-- The duplicate-removal loop of getUVForecast: walk the sorted list, keep a
sample only when its key has not been seen, and record the key. -/
def dedupe (seen : List (ℕ × ℕ)) : List Sample → List Sample
  | [] => []
  | h :: t =>
    if hourKey h ∈ seen then dedupe seen t
    else h :: dedupe (hourKey h :: seen) t

/-- The merge/dedup step of getUVForecast: concatenate historical then
forecast samples, stable-sort by time, then remove duplicate
(day-of-month, hour-of-day) keys keeping the first occurrence. -/
def mergeTimeline (hist fore : List Sample) : List Sample :=
  dedupe [] (List.insertionSort timeLE (hist ++ fore))

/-- Math.round(uv * 2) / 2 of groupUVDataByIndex; JS Math.round x is the
floor of x + 1/2 (round half up). -/
def roundHalf (x : ℚ) : ℚ :=
  ((⌊x * 2 + 1 / 2⌋ : ℤ) : ℚ) / 2

/-- One grouped arc produced by groupUVDataByIndex. -/
structure UVGroup where
  uvIndex : ℚ
  startTime : ℕ
  endTime : ℕ
  startHour : ℚ
  endHour : ℚ
  hours : List Sample
deriving DecidableEq, Repr

/-- getHours() + getMinutes() / 60 of a sample time: the fractional
startHour a freshly started group records. -/
def startHourOf (t : ℕ) : ℚ :=
  ((t / 60 % 24 : ℕ) : ℚ) + ((t % 60 : ℕ) : ℚ) / 60

/-- getHours() + 1 + getMinutes() / 60 of a sample time: the fractional
endHour recorded for the last contributing sample. -/
def endHourOf (t : ℕ) : ℚ :=
  ((t / 60 % 24 : ℕ) : ℚ) + 1 + ((t % 60 : ℕ) : ℚ) / 60

/-- The group a sample opens in groupUVDataByIndex: endTime is one hour past
the sample, start/end hours are the fractional hour bounds. -/
def mkGroup (h : Sample) : UVGroup :=
  { uvIndex := roundHalf h.uv
    startTime := h.time
    endTime := h.time + 60
    startHour := startHourOf h.time
    endHour := endHourOf h.time
    hours := [h] }

/-- Extending the current group of groupUVDataByIndex with one more sample:
endTime/endHour move one hour past the new sample. -/
def extendGroup (cur : UVGroup) (h : Sample) : UVGroup :=
  { cur with
    endTime := h.time + 60
    endHour := endHourOf h.time
    hours := cur.hours ++ [h] }

/-- The grouping loop of groupUVDataByIndex: a sample whose rounded UV equals
the current group's uvIndex extends it, otherwise the group is emitted and a
new one starts; the final group is emitted at the end. -/
def groupLoop (cur : UVGroup) : List Sample → List UVGroup
  | [] => [cur]
  | h :: rest =>
    if roundHalf h.uv = cur.uvIndex then groupLoop (extendGroup cur h) rest
    else cur :: groupLoop (mkGroup h) rest

/-- groupUVDataByIndex: empty input gives no groups; otherwise run the
grouping loop and drop the groups whose uvIndex is 0. -/
def groupUVDataByIndex (l : List Sample) : List UVGroup :=
  match l with
  | [] => []
  | h :: rest => (groupLoop (mkGroup h) rest).filter (fun g => decide (0 < g.uvIndex))

/-- The triangular fallback UV value of getFallbackUVData for a given
hour of day: max(0, 8 - |12 - hour| * 1.2) inside [6, 18], else 0. -/
def fallbackUV (h : ℕ) : ℚ :=
  if 6 ≤ h ∧ h ≤ 18 then max 0 (8 - |(12 : ℚ) - (h : ℚ)| * 1.2) else 0

/-- The 24 hourly samples getFallbackUVData synthesizes starting at the
reference time now (minutes): sample i sits at now + i hours and carries the
triangular UV value of its hour of day. -/
def getFallbackUVData (now : ℕ) : List Sample :=
  (List.range 24).map (fun i => { time := now + i * 60, uv := fallbackUV ((now + i * 60) / 60 % 24) })

/-- Structural invariant of the grouping loop: a group's startHour is the
fractional start hour of its first member, its endHour is one hour past its
last member, and every member's rounded UV equals the group's uvIndex. -/
def WFGroup (g : UVGroup) : Prop :=
  (∃ a, g.hours.head? = some a ∧ g.startHour = startHourOf a.time) ∧
  (∃ b, g.hours.getLast? = some b ∧ g.endHour = endHourOf b.time) ∧
  ∀ h ∈ g.hours, roundHalf h.uv = g.uvIndex

/-- A Date of the JS code, modelled as an absolute day number and the
milliseconds elapsed within that day, over years of 365 days. -/
structure DateL where
  absDay : ℤ
  msOfDay : ℤ
deriving DecidableEq, Repr

/-- The millisecond value of a date (what Date arithmetic subtracts). -/
def toMs (d : DateL) : ℤ :=
  d.absDay * 86400000 + d.msOfDay

/-- date.getFullYear() in the 365-day-year model (day 0 opens year 0). -/
def getFullYear (d : DateL) : ℤ :=
  d.absDay / 365

/-- getDayOfYear (calculations.js): start is new Date(year, 0, 0), the day
before Jan 1 at midnight; the difference in ms is floor-divided by one day. -/
def getDayOfYear (d : DateL) : ℤ :=
  (toMs d - toMs ⟨getFullYear d * 365 - 1, 0⟩) / 86400000

/-- A user location; estimateDayLength reads only lat, never lng. -/
structure Location where
  lat : ℝ
  lng : ℝ

/-- The day-length record of estimateDayLength: hours, minutes and
totalMinutes (the formatted string field is a rendering of these). -/
structure DayLength where
  hours : ℤ
  minutes : ℤ
  totalMinutes : ℤ
deriving DecidableEq, Repr

open Classical in
/-- estimateDayLength (calculations.js 448-477) as a function of the day of
year and the (possibly missing) location: an invalid location falls back to
the default NYC coordinates; the solar declination is
23.45 * sin((360/365) * (dayOfYear - 81) * pi/180); the acos argument
-tan(lat) * tan(declRad) is passed to Math.acos UNCLAMPED, so outside
[-1, 1] the JS result is NaN, modelled as none. -/
noncomputable def estimateDayLengthCore (dayOfYear : ℤ) (location : Option Location) : Option DayLength :=
  let loc := location.getD ⟨40.7128, -74.0060⟩
  let lat := loc.lat * Real.pi / 180
  let declination := 23.45 * Real.sin ((360 / 365) * ((dayOfYear : ℝ) - 81) * Real.pi / 180)
  let declinationRad := declination * Real.pi / 180
  let x := -(Real.tan lat * Real.tan declinationRad)
  if -1 ≤ x ∧ x ≤ 1 then
    let hourAngleDegrees := Real.arccos x * 180 / Real.pi
    let dayLengthHours := 2 * hourAngleDegrees / 15
    let totalMinutes := round (dayLengthHours * 60)
    some ⟨totalMinutes / 60, totalMinutes % 60, totalMinutes⟩
  else none

/-- estimateDayLength on a date: only getDayOfYear of the date enters. -/
noncomputable def estimateDayLength (date : DateL) (location : Option Location) : Option DayLength :=
  estimateDayLengthCore (getDayOfYear date) location

/-- getNextSolstice: the first of this year's summer (June 21) and winter
(Dec 21) solstices after today, else next year's summer solstice at
midnight; in the 365-day model June 21 is day 171 of the year and Dec 21 is
day 354, both at 12:00 in the approximate-date branch. -/
def nextSolsticeDay (today : DateL) : DateL :=
  let y := getFullYear today
  let summer : DateL := ⟨y * 365 + 171, 43200000⟩
  let winter : DateL := ⟨y * 365 + 354, 43200000⟩
  if toMs today < toMs summer then summer
  else if toMs today < toMs winter then winter
  else ⟨(y + 1) * 365 + 171, 0⟩

/-- Math.ceil of an ms difference divided by DAY_TO_MS. -/
def jsCeilDiv (a b : ℤ) : ℤ :=
  ⌈(a : ℚ) / (b : ℚ)⌉

/-- daysUntilSearchStart of findMatchingDayLength: the ceiling of the ms
distance from today to the day after the next solstice, in days. -/
def dussOf (today : DateL) : ℤ :=
  jsCeilDiv (toMs ⟨(nextSolsticeDay today).absDay + 1, (nextSolsticeDay today).msOfDay⟩ - toMs today) 86400000

/-- The closestMatch record of findMatchingDayLength. -/
structure MatchResult where
  date : DateL
  dayLength : DayLength
  difference : ℤ
  daysFromToday : ℤ

/-- The candidate the scan builds at loop index k (daysAfterSolstice):
test date today + daysUntilSearchStart + k, its estimated day length, and
the absolute difference to the target; a NaN day length (none) gives a NaN
difference that every comparison rejects, so no candidate arises. -/
noncomputable def candidateAt (target : ℤ) (location : Option Location) (today : DateL) (duss k : ℤ) :
    Option MatchResult :=
  match estimateDayLength ⟨today.absDay + (duss + k), today.msOfDay⟩ location with
  | none => none
  | some tdl => some ⟨⟨today.absDay + (duss + k), today.msOfDay⟩, tdl, |tdl.totalMinutes - target|, duss + k⟩

/-- One iteration of the scan loop: keep closestMatch unless the candidate
exists and its difference is strictly below the smallest seen so far. -/
def scanStep (cand : ℤ → Option MatchResult) (acc : Option MatchResult) (k : ℤ) : Option MatchResult :=
  match cand k with
  | none => acc
  | some c =>
    match acc with
    | none => some c
    | some m => if c.difference < m.difference then some c else acc

/-- The scan over a list of daysAfterSolstice values, starting from a null
closestMatch and infinite smallestDifference. -/
def bestScan (cand : ℤ → Option MatchResult) (ks : List ℤ) : Option MatchResult :=
  ks.foldl (scanStep cand) none

/-- The loop indices of findMatchingDayLength: daysAfterSolstice 1..185. -/
def scanKeys : List ℤ :=
  (List.range 185).map (fun i => (i : ℤ) + 1)

/-- findMatchingDayLength (calculations.js 380-446): null or falsy (zero)
totalMinutes returns null at once; otherwise scan the 185 days after the
next solstice keeping the strict-minimum-difference candidate. -/
noncomputable def findMatchingDayLength (currentDayLength : Option DayLength) (location : Option Location)
    (today : DateL) : Option MatchResult :=
  match currentDayLength with
  | none => none
  | some dl =>
    if dl.totalMinutes = 0 then none
    else bestScan (candidateAt dl.totalMinutes location today (dussOf today)) scanKeys

lemma wf_mkGroup (h : Sample) : WFGroup (mkGroup h) := by
  refine ⟨⟨h, rfl, rfl⟩, ⟨h, rfl, rfl⟩, ?_⟩
  intro x hx
  rcases List.mem_singleton.mp hx with rfl
  rfl

lemma wf_extendGroup (cur : UVGroup) (h : Sample) (hwf : WFGroup cur)
    (heq : roundHalf h.uv = cur.uvIndex) : WFGroup (extendGroup cur h) := by
  obtain ⟨⟨a, ha, hsh⟩, ⟨b, hb, heh⟩, hmem⟩ := hwf
  refine ⟨⟨a, ?_, hsh⟩, ⟨h, ?_, rfl⟩, ?_⟩
  · cases hl : cur.hours with
    | nil => rw [hl] at ha; simp at ha
    | cons x xs =>
      rw [hl] at ha
      simpa [extendGroup, hl] using ha
  · simp [extendGroup]
  · intro x hx
    have hx2 : x ∈ cur.hours ∨ x = h := by simpa [extendGroup] using hx
    rcases hx2 with hx1 | rfl
    · exact hmem x hx1
    · exact heq

lemma wf_groupLoop : ∀ (l : List Sample) (cur : UVGroup), WFGroup cur →
    ∀ g ∈ groupLoop cur l, WFGroup g := by
  intro l
  induction l with
  | nil =>
    intro cur hwf g hg
    rcases List.mem_singleton.mp (by simpa [groupLoop] using hg) with rfl
    exact hwf
  | cons h rest ih =>
    intro cur hwf g hg
    rw [groupLoop] at hg
    by_cases hc : roundHalf h.uv = cur.uvIndex
    · rw [if_pos hc] at hg
      exact ih (extendGroup cur h) (wf_extendGroup cur h hwf hc) g hg
    · rw [if_neg hc] at hg
      rcases List.mem_cons.mp hg with rfl | hg1
      · exact hwf
      · exact ih (mkGroup h) (wf_mkGroup h) g hg1

lemma wf_groupUVDataByIndex (l : List Sample) (g : UVGroup) (hg : g ∈ groupUVDataByIndex l) :
    WFGroup g ∧ 0 < g.uvIndex := by
  cases l with
  | nil => simp [groupUVDataByIndex] at hg
  | cons h rest =>
    rw [groupUVDataByIndex] at hg
    obtain ⟨hmem, hpos⟩ := List.mem_filter.mp hg
    exact ⟨wf_groupLoop rest (mkGroup h) (wf_mkGroup h) g hmem, of_decide_eq_true hpos⟩

lemma groupUVDataByIndex_single (t : ℕ) (u r : ℚ) (hr : roundHalf u = r) (hpos : 0 < r) :
    groupUVDataByIndex [⟨t, u⟩] =
      [⟨r, t, t + 60, startHourOf t, endHourOf t, [⟨t, u⟩]⟩] := by
  simp [groupUVDataByIndex, groupLoop, mkGroup, hr, hpos]

lemma groupUVDataByIndex_pair (t : ℕ) (u v r s : ℚ) (hru : roundHalf u = r)
    (hsv : roundHalf v = s) (hrs : s ≠ r) (hr : 0 < r) (hs : 0 < s) :
    groupUVDataByIndex [⟨t, u⟩, ⟨t + 60, v⟩] =
      [⟨r, t, t + 60, startHourOf t, endHourOf t, [⟨t, u⟩]⟩,
       ⟨s, t + 60, t + 60 + 60, startHourOf (t + 60), endHourOf (t + 60), [⟨t + 60, v⟩]⟩] := by
  simp [groupUVDataByIndex, groupLoop, mkGroup, hru, hsv, hrs, hr, hs]

lemma endHour_startHour_adjacent (t : ℕ) :
    endHourOf t = startHourOf (t + 60) ∨ endHourOf t = startHourOf (t + 60) + 24 := by
  have h60 : (t + 60) % 60 = t % 60 := by omega
  have hdiv : (t + 60) / 60 = t / 60 + 1 := by omega
  rcases Nat.lt_or_ge (t / 60 % 24) 23 with hc | hc
  · left
    unfold endHourOf startHourOf
    rw [h60, hdiv]
    have h24 : (t / 60 + 1) % 24 = t / 60 % 24 + 1 := by omega
    rw [h24]
    push_cast
    ring
  · right
    have h23 : t / 60 % 24 = 23 := by omega
    unfold endHourOf startHourOf
    rw [h60, hdiv]
    have h24 : (t / 60 + 1) % 24 = 0 := by omega
    rw [h24, h23]
    push_cast
    ring

/-- C7: groupUVDataByIndex rounds each uvIndex to the nearest 0.5 with ties
up (roundHalf yields multiples of 1/2 within 1/4 of the input, never a full
1/4 below it), every group member rounds to the group's uvIndex, the sample
input (10:00, 1.9), (11:00, 2.1), (12:00, 2.0) gives a single group with
uvIndex 2 spanning 10:00 to 13:00, and empty input gives empty output. -/
theorem groupUVDataByIndex_round_merge :
    groupUVDataByIndex [⟨600, 19/10⟩, ⟨660, 21/10⟩, ⟨720, 2⟩] =
      [⟨2, 600, 780, 10, 13, [⟨600, 19/10⟩, ⟨660, 21/10⟩, ⟨720, 2⟩]⟩] ∧
    groupUVDataByIndex [] = [] ∧
    (∀ (l : List Sample) (g : UVGroup) (h : Sample),
      g ∈ groupUVDataByIndex l → h ∈ g.hours → g.uvIndex = roundHalf h.uv) ∧
    ∀ x : ℚ, (∃ z : ℤ, roundHalf x = (z : ℚ) / 2) ∧
      |roundHalf x - x| ≤ 1/4 ∧ x - roundHalf x < 1/4 := by
  refine ⟨?_, ?_, ?_, ?_⟩
  · have h19 : roundHalf (19/10) = 2 := by norm_num [roundHalf]
    have h21 : roundHalf (21/10) = 2 := by norm_num [roundHalf]
    have h2 : roundHalf 2 = 2 := by norm_num [roundHalf]
    simp [groupUVDataByIndex, groupLoop, mkGroup, extendGroup, h19, h21, h2,
      startHourOf, endHourOf]
    norm_num
  · rfl
  · intro l g h hg hh
    exact ((wf_groupUVDataByIndex l g hg).1.2.2 h hh).symm
  · intro x
    have hle : ((⌊x * 2 + 1/2⌋ : ℤ) : ℚ) ≤ x * 2 + 1/2 := Int.floor_le _
    have hlt : x * 2 + 1/2 < (⌊x * 2 + 1/2⌋ : ℤ) + 1 := Int.lt_floor_add_one _
    refine ⟨⟨⌊x * 2 + 1/2⌋, rfl⟩, abs_le.mpr ⟨by unfold roundHalf; linarith, by unfold roundHalf; linarith⟩, ?_⟩
    unfold roundHalf
    linarith

/-- C7 witness: the membership statement of the theorem evaluated on the
one-sample timeline at 05:00 with uv 3. -/
theorem groupUVDataByIndex_round_merge_witness :
    (⟨3, 300, 360, startHourOf 300, endHourOf 300, [⟨300, 3⟩]⟩ : UVGroup).uvIndex =
      roundHalf (3 : ℚ) :=
  groupUVDataByIndex_round_merge.2.2.1 [⟨300, 3⟩] _ ⟨300, 3⟩
    (by
      rw [groupUVDataByIndex_single 300 3 3 (by norm_num [roundHalf]) (by norm_num)]
      exact List.mem_singleton.mpr rfl)
    (List.mem_singleton.mpr rfl)

/-- C8: every group groupUVDataByIndex emits has uvIndex strictly positive,
that uvIndex is a positive integer multiple of one half, and no member hour
of any emitted group has a UV value that rounds to 0. -/
theorem groupUVDataByIndex_positive (l : List Sample) (g : UVGroup)
    (hg : g ∈ groupUVDataByIndex l) :
    0 < g.uvIndex ∧ (∃ z : ℤ, 0 < z ∧ g.uvIndex = (z : ℚ) / 2) ∧
      ∀ h ∈ g.hours, roundHalf h.uv ≠ 0 := by
  obtain ⟨⟨⟨a, ha, _⟩, _, hmem⟩, hpos⟩ := wf_groupUVDataByIndex l g hg
  have hamem : a ∈ g.hours := by
    cases hl : g.hours with
    | nil => rw [hl] at ha; simp at ha
    | cons x xs =>
      rw [hl] at ha
      rcases Option.some.inj ha with rfl
      exact List.mem_cons_self x xs
  refine ⟨hpos, ⟨⌊a.uv * 2 + 1/2⌋, ?_, ?_⟩, ?_⟩
  · have hz : g.uvIndex = ((⌊a.uv * 2 + 1/2⌋ : ℤ) : ℚ) / 2 := by
      rw [← hmem a hamem]; rfl
    rw [hz] at hpos
    have h2 : (0 : ℚ) < ((⌊a.uv * 2 + 1/2⌋ : ℤ) : ℚ) := by linarith
    exact_mod_cast h2
  · rw [← hmem a hamem]; rfl
  · intro h hh
    rw [hmem h hh]
    exact ne_of_gt hpos

/-- C8 witness: the theorem evaluated on the one-sample timeline at 10:00
with uv 3. -/
theorem groupUVDataByIndex_positive_witness :
    0 < (⟨3, 600, 660, startHourOf 600, endHourOf 600, [⟨600, 3⟩]⟩ : UVGroup).uvIndex ∧
    (∃ z : ℤ, 0 < z ∧
      (⟨3, 600, 660, startHourOf 600, endHourOf 600, [⟨600, 3⟩]⟩ : UVGroup).uvIndex = (z : ℚ) / 2) ∧
    ∀ h ∈ (⟨3, 600, 660, startHourOf 600, endHourOf 600, [⟨600, 3⟩]⟩ : UVGroup).hours,
      roundHalf h.uv ≠ 0 :=
  groupUVDataByIndex_positive [⟨600, 3⟩] _
    (by
      rw [groupUVDataByIndex_single 600 3 3 (by norm_num [roundHalf]) (by norm_num)]
      exact List.mem_singleton.mpr rfl)

/-- C2: whenever two groups sit at consecutive positions of the output of
groupUVDataByIndex and the first member hour of the second immediately
follows (one hour after) the last member hour of the first in the source
timeline, the endHour of the first equals the startHour of the second,
except across midnight where it equals startHour + 24 (the code computes
endHour from getHours(), which wraps, so the two bounds differ by exactly
24 there instead of being equal). -/
theorem groupUVDataByIndex_abut (l : List Sample) (i : ℕ) (g1 g2 : UVGroup) (b a : Sample)
    (h1 : (groupUVDataByIndex l)[i]? = some g1) (h2 : (groupUVDataByIndex l)[i+1]? = some g2)
    (hb : g1.hours.getLast? = some b) (ha : g2.hours.head? = some a)
    (hadj : a.time = b.time + 60) :
    g1.endHour = g2.startHour ∨ g1.endHour = g2.startHour + 24 := by
  have hm1 : g1 ∈ groupUVDataByIndex l := by
    obtain ⟨hlt, rfl⟩ := List.getElem?_eq_some_iff.mp h1
    exact List.getElem_mem hlt
  have hm2 : g2 ∈ groupUVDataByIndex l := by
    obtain ⟨hlt, rfl⟩ := List.getElem?_eq_some_iff.mp h2
    exact List.getElem_mem hlt
  obtain ⟨_, ⟨b0, hb0, heh⟩, _⟩ := (wf_groupUVDataByIndex l g1 hm1).1
  obtain ⟨⟨a0, ha0, hsh⟩, _, _⟩ := (wf_groupUVDataByIndex l g2 hm2).1
  rw [hb] at hb0
  rw [ha] at ha0
  rcases Option.some.inj hb0 with rfl
  rcases Option.some.inj ha0 with rfl
  rw [heh, hsh, hadj]
  exact endHour_startHour_adjacent b.time

/-- C2 witness: the theorem evaluated on the two-group timeline 10:00 uv 3,
11:00 uv 4, where the shared bound is 11. -/
theorem groupUVDataByIndex_abut_witness :
    (⟨3, 600, 660, startHourOf 600, endHourOf 600, [⟨600, 3⟩]⟩ : UVGroup).endHour =
      (⟨4, 660, 720, startHourOf 660, endHourOf 660, [⟨660, 4⟩]⟩ : UVGroup).startHour ∨
    (⟨3, 600, 660, startHourOf 600, endHourOf 600, [⟨600, 3⟩]⟩ : UVGroup).endHour =
      (⟨4, 660, 720, startHourOf 660, endHourOf 660, [⟨660, 4⟩]⟩ : UVGroup).startHour + 24 := by
  have hpair := groupUVDataByIndex_pair 600 3 4 3 4 (by norm_num [roundHalf])
    (by norm_num [roundHalf]) (by norm_num) (by norm_num) (by norm_num)
  exact groupUVDataByIndex_abut [⟨600, 3⟩, ⟨660, 4⟩] 0 _ _ ⟨600, 3⟩ ⟨660, 4⟩
    (by rw [hpair]; rfl) (by rw [hpair]; rfl) rfl rfl rfl

/-- C2 counterexample: on the timeline 23:00 uv 3, 00:00 uv 4 the two
output groups satisfy the adjacency premise of the claim, yet the first
group's endHour is 24 while the second group's startHour is 0, so adjacent
groups do not abut exactly across midnight. -/
theorem groupUVDataByIndex_abut_midnight_cex :
    ((groupUVDataByIndex [⟨1380, 3⟩, ⟨1440, 4⟩])[0]?).map UVGroup.endHour = some 24 ∧
    ((groupUVDataByIndex [⟨1380, 3⟩, ⟨1440, 4⟩])[1]?).map UVGroup.startHour = some 0 ∧
    ((groupUVDataByIndex [⟨1380, 3⟩, ⟨1440, 4⟩])[0]?).map (fun g => g.hours.getLast?) =
      some (some ⟨1380, 3⟩) ∧
    ((groupUVDataByIndex [⟨1380, 3⟩, ⟨1440, 4⟩])[1]?).map (fun g => g.hours.head?) =
      some (some ⟨1440, 4⟩) ∧
    (1440 : ℕ) = 1380 + 60 ∧ (24 : ℚ) ≠ 0 := by
  have hpair := groupUVDataByIndex_pair 1380 3 4 3 4 (by norm_num [roundHalf])
    (by norm_num [roundHalf]) (by norm_num) (by norm_num) (by norm_num)
  refine ⟨?_, ?_, ?_, ?_, rfl, by norm_num⟩
  · rw [hpair]
    norm_num [endHourOf]
  · rw [hpair]
    norm_num [startHourOf]
  · rw [hpair]; rfl
  · rw [hpair]; rfl

/-- C9: getFallbackUVData always yields exactly 24 samples, strictly
increasing in time, carrying the triangular UV value
max(0, 8 - 1.2 * |12 - hourOfDay|) for hours of day in [6, 18] and 0
otherwise, and at least one sample (the one whose hour of day is 12) has a
strictly positive UV value. -/
theorem getFallbackUVData_spec (now : ℕ) :
    (getFallbackUVData now).length = 24 ∧
    List.Pairwise (fun a b : Sample => a.time < b.time) (getFallbackUVData now) ∧
    (∀ s ∈ getFallbackUVData now,
      s.uv = if 6 ≤ s.time / 60 % 24 ∧ s.time / 60 % 24 ≤ 18
        then max 0 (8 - 1.2 * |(12 : ℚ) - ((s.time / 60 % 24 : ℕ) : ℚ)|) else 0) ∧
    ∃ s ∈ getFallbackUVData now, 0 < s.uv := by
  refine ⟨by simp [getFallbackUVData], ?_, ?_, ?_⟩
  · rw [getFallbackUVData]
    refine List.pairwise_map.mpr ((List.pairwise_lt_range 24).imp ?_)
    intro i j hij
    dsimp only
    omega
  · intro s hs
    obtain ⟨i, _, rfl⟩ := List.mem_map.mp hs
    by_cases hc : 6 ≤ (now + i * 60) / 60 % 24 ∧ (now + i * 60) / 60 % 24 ≤ 18
    · simp only [fallbackUV, if_pos hc]
      ring_nf
    · simp only [fallbackUV, if_neg hc]
  · refine ⟨⟨now + ((36 - now / 60 % 24) % 24) * 60,
      fallbackUV ((now + ((36 - now / 60 % 24) % 24) * 60) / 60 % 24)⟩,
      List.mem_map.mpr ⟨(36 - now / 60 % 24) % 24, List.mem_range.mpr (by omega), rfl⟩, ?_⟩
    have hhr : (now + ((36 - now / 60 % 24) % 24) * 60) / 60 % 24 = 12 := by omega
    rw [hhr]
    norm_num [fallbackUV]

/-- C9 witness: the length and positivity statements evaluated at
reference time 0. -/
theorem getFallbackUVData_spec_witness :
    (getFallbackUVData 0).length = 24 ∧ ∃ s ∈ getFallbackUVData 0, 0 < s.uv :=
  ⟨(getFallbackUVData_spec 0).1, (getFallbackUVData_spec 0).2.2.2⟩

/-- C1: estimateDayLength does NOT clamp the acos argument; on day of year
172 (June 21) at latitude 80 N the argument -tan(lat)tan(decl) lies below
-1, Math.acos returns NaN and the whole day-length record is NaN (none),
not a valid 24h or 0h day length as the specification requires. -/
theorem estimateDayLength_polar_nan :
    estimateDayLength ⟨171, 0⟩ (some ⟨80, 0⟩) = none := by
  have hdoy : getDayOfYear ⟨171, 0⟩ = 172 := by decide
  have hkey : 1 < Real.tan (80 * Real.pi / 180) *
      Real.tan (23.45 * Real.sin ((360 / 365) * ((172 : ℝ) - 81) * Real.pi / 180) * Real.pi / 180) := by
    have hθeq : (360 / 365 : ℝ) * ((172 : ℝ) - 81) * Real.pi / 180 = 182 * Real.pi / 365 := by
      ring
    have hlat : (80 : ℝ) * Real.pi / 180 = Real.pi / 2 - Real.pi / 18 := by
      ring
    rw [hθeq, hlat, Real.tan_pi_div_two_sub]
    have hπ3 := Real.pi_gt_three
    have hπ0 := Real.pi_pos
    have hθlo : (0.48 : ℝ) < 182 * Real.pi / 365 := by nlinarith
    have hθhi : 182 * Real.pi / 365 ≤ Real.pi / 2 := by nlinarith
    have hmono : Real.sin 0.48 < Real.sin (182 * Real.pi / 365) :=
      Real.strictMonoOn_sin ⟨by nlinarith, by nlinarith⟩ ⟨by nlinarith, hθhi⟩ hθlo
    have hsin48 : (0.427 : ℝ) < Real.sin 0.48 := by
      have hcube := Real.sin_gt_sub_cube (by norm_num : (0:ℝ) < 0.48) (by norm_num : (0.48:ℝ) ≤ 1)
      have hpow : (0.48 : ℝ) ^ 3 = 0.110592 := by norm_num
      linarith
    have hsinθ : (0.427 : ℝ) < Real.sin (182 * Real.pi / 365) := lt_trans hsin48 hmono
    have hsle : Real.sin (182 * Real.pi / 365) ≤ 1 := Real.sin_le_one _
    have hDlo : Real.pi / 18 < 23.45 * Real.sin (182 * Real.pi / 365) * Real.pi / 180 := by
      have hgap : (0 : ℝ) < 23.45 * Real.sin (182 * Real.pi / 365) - 10 := by linarith
      nlinarith [mul_pos Real.pi_pos hgap]
    have hDhi : 23.45 * Real.sin (182 * Real.pi / 365) * Real.pi / 180 < Real.pi / 2 := by
      nlinarith
    have htp : 0 < Real.tan (Real.pi / 18) :=
      Real.tan_pos_of_pos_of_lt_pi_div_two (by positivity) (by nlinarith)
    have htlt : Real.tan (Real.pi / 18) <
        Real.tan (23.45 * Real.sin (182 * Real.pi / 365) * Real.pi / 180) := by
      refine Real.strictMonoOn_tan ⟨by nlinarith, by nlinarith⟩ ⟨by nlinarith, hDhi⟩ hDlo
    have hinv : 0 < (Real.tan (Real.pi / 18))⁻¹ := inv_pos.mpr htp
    calc (1 : ℝ) = (Real.tan (Real.pi / 18))⁻¹ * Real.tan (Real.pi / 18) :=
          (inv_mul_cancel₀ (ne_of_gt htp)).symm
      _ < (Real.tan (Real.pi / 18))⁻¹ *
            Real.tan (23.45 * Real.sin (182 * Real.pi / 365) * Real.pi / 180) :=
          mul_lt_mul_of_pos_left htlt hinv
  show estimateDayLengthCore (getDayOfYear ⟨171, 0⟩) (some ⟨80, 0⟩) = none
  rw [hdoy]
  simp only [estimateDayLengthCore, Option.getD_some]
  rw [if_neg]
  rintro ⟨hle, -⟩
  rw [show ((172 : ℤ) : ℝ) = (172 : ℝ) from by norm_num] at hle
  have hle2 : (-1 : ℝ) ≤ -(Real.tan (80 * Real.pi / 180) *
      Real.tan (23.45 * Real.sin ((360 / 365) * ((172 : ℝ) - 81) * Real.pi / 180) * Real.pi / 180)) := hle
  linarith

lemma orderedInsert_eq_cons (x : Sample) (l : List Sample) (hall : ∀ z ∈ l, timeLE x z) :
    List.orderedInsert timeLE x l = x :: l := by
  cases l with
  | nil => rfl
  | cons y t =>
    rw [List.orderedInsert, if_pos (hall y (List.mem_cons_self y t))]

lemma filter_orderedInsert (p : Sample → Bool) (x : Sample) :
    ∀ l : List Sample, List.Sorted timeLE l →
      (List.orderedInsert timeLE x l).filter p =
        if p x then List.orderedInsert timeLE x (l.filter p) else l.filter p := by
  intro l
  induction l with
  | nil =>
    intro _
    cases hpx : p x <;> simp [List.orderedInsert, hpx]
  | cons y t ih =>
    intro hs
    obtain ⟨hy, hst⟩ := List.sorted_cons.mp hs
    by_cases hxy : timeLE x y
    · rw [List.orderedInsert, if_pos hxy]
      cases hpx : p x with
      | false => cases hpy : p y <;> simp [List.filter_cons, hpx, hpy]
      | true =>
        cases hpy : p y with
        | true => simp [List.filter_cons, hpx, hpy, List.orderedInsert, hxy]
        | false =>
          have hall : ∀ z ∈ t.filter p, timeLE x z := by
            intro z hz
            exact Nat.le_trans hxy (hy z (List.mem_of_mem_filter hz))
          simp only [List.filter_cons, hpx, hpy, if_pos, if_true, Bool.false_eq_true,
            if_false]
          rw [orderedInsert_eq_cons x _ hall]
    · rw [List.orderedInsert, if_neg hxy]
      cases hpx : p x with
      | false =>
        cases hpy : p y <;>
          simp [List.filter_cons, hpx, hpy, ih hst]
      | true =>
        cases hpy : p y with
        | true =>
          simp only [List.filter_cons, hpx, hpy, if_true, Bool.true_eq_false, if_false]
          rw [ih hst, if_pos hpx, List.orderedInsert, if_neg hxy]
        | false =>
          simp only [List.filter_cons, hpx, hpy, if_true, Bool.false_eq_true, if_false]
          rw [ih hst, if_pos hpx]

lemma filter_insertionSort (p : Sample → Bool) :
    ∀ l : List Sample,
      (List.insertionSort timeLE l).filter p = List.insertionSort timeLE (l.filter p) := by
  intro l
  induction l with
  | nil => rfl
  | cons x t ih =>
    rw [List.insertionSort,
      filter_orderedInsert p x _ (List.sorted_insertionSort timeLE t)]
    cases hpx : p x with
    | true =>
      rw [if_pos rfl, ih, List.filter_cons, hpx, if_pos rfl, List.insertionSort]
    | false =>
      rw [if_neg (by simp), ih, List.filter_cons, hpx]
      simp

lemma dedupe_sublist : ∀ (l : List Sample) (seen : List (ℕ × ℕ)), List.Sublist (dedupe seen l) l := by
  intro l
  induction l with
  | nil => intro seen; simp [dedupe]
  | cons h t ih =>
    intro seen
    rw [dedupe]
    by_cases hc : hourKey h ∈ seen
    · rw [if_pos hc]
      exact (ih seen).cons h
    · rw [if_neg hc]
      exact (ih (hourKey h :: seen)).cons₂ h

lemma dedupe_nodupKeys : ∀ (l : List Sample) (seen : List (ℕ × ℕ)),
    ((dedupe seen l).map hourKey).Nodup ∧ ∀ k ∈ (dedupe seen l).map hourKey, k ∉ seen := by
  intro l
  induction l with
  | nil => intro seen; simp [dedupe]
  | cons h t ih =>
    intro seen
    rw [dedupe]
    by_cases hc : hourKey h ∈ seen
    · rw [if_pos hc]
      exact ih seen
    · rw [if_neg hc]
      obtain ⟨ihn, ihs⟩ := ih (hourKey h :: seen)
      constructor
      · simp only [List.map_cons, List.nodup_cons]
        exact ⟨fun hmem => (ihs _ hmem) (List.mem_cons_self _ _), ihn⟩
      · intro k hk
        simp only [List.map_cons, List.mem_cons] at hk
        rcases hk with rfl | hk
        · exact hc
        · exact fun hks => (ihs k hk) (List.mem_cons_of_mem _ hks)

lemma dedupe_eq_self : ∀ (l : List Sample) (seen : List (ℕ × ℕ)),
    (l.map hourKey).Nodup → (∀ s ∈ l, hourKey s ∉ seen) → dedupe seen l = l := by
  intro l
  induction l with
  | nil => intro seen _ _; rfl
  | cons h t ih =>
    intro seen hnd hns
    have hnd1 : (hourKey h :: t.map hourKey).Nodup := by
      rw [List.map_cons] at hnd
      exact hnd
    obtain ⟨hh, hnd2⟩ := List.nodup_cons.mp hnd1
    rw [dedupe, if_neg (hns h (List.mem_cons_self h t))]
    rw [ih (hourKey h :: seen) hnd2 ?_]
    intro s hs
    intro hmem
    rcases List.mem_cons.mp hmem with heq | hmem2
    · exact hh (heq ▸ List.mem_map_of_mem hourKey hs)
    · exact hns s (List.mem_cons_of_mem h hs) hmem2

lemma dedupe_filter (k : ℕ × ℕ) : ∀ (l : List Sample) (seen : List (ℕ × ℕ)),
    (dedupe seen l).filter (keyIs k) =
      if k ∈ seen then [] else (l.filter (keyIs k)).take 1 := by
  intro l
  induction l with
  | nil =>
    intro seen
    cases hks : decide (k ∈ seen) <;> simp_all [dedupe]
  | cons h t ih =>
    intro seen
    rw [dedupe]
    by_cases hc : hourKey h ∈ seen
    · rw [if_pos hc, ih seen]
      by_cases hks : k ∈ seen
      · rw [if_pos hks, if_pos hks]
      · rw [if_neg hks, if_neg hks, List.filter_cons,
          if_neg (by simp [keyIs]; rintro rfl; exact hks hc)]
    · rw [if_neg hc]
      by_cases hkh : hourKey h = k
      · subst hkh
        rw [List.filter_cons, if_pos (by simp [keyIs]), ih (hourKey h :: seen),
          if_pos (List.mem_cons_self _ _), if_neg hc, List.filter_cons,
          if_pos (by simp [keyIs])]
        rfl
      · rw [List.filter_cons, if_neg (by simp [keyIs, hkh]), ih (hourKey h :: seen)]
        by_cases hks : k ∈ seen
        · rw [if_pos (List.mem_cons_of_mem _ hks), if_pos hks]
        · have hkmem : k ∉ hourKey h :: seen := by
            intro hmem
            rcases List.mem_cons.mp hmem with h2 | h2
            · exact hkh h2.symm
            · exact hks h2
          rw [if_neg hkmem, if_neg hks, List.filter_cons, if_neg (by simp [keyIs, hkh])]

/-- C6: the merged timeline never has two elements with the same
(day-of-month, hour-of-day) key, its length never exceeds the length of the
concatenated input, it is always sorted by time, and when the concatenated
input has no duplicate keys the output keeps every sample (equal length,
ascending time order). -/
theorem mergeTimeline_spec (hist fore : List Sample) :
    ((mergeTimeline hist fore).map hourKey).Nodup ∧
    (mergeTimeline hist fore).length ≤ (hist ++ fore).length ∧
    List.Sorted timeLE (mergeTimeline hist fore) ∧
    (((hist ++ fore).map hourKey).Nodup →
      (mergeTimeline hist fore).length = (hist ++ fore).length) := by
  have hsorted := List.sorted_insertionSort timeLE (hist ++ fore)
  have hperm := List.perm_insertionSort timeLE (hist ++ fore)
  refine ⟨(dedupe_nodupKeys _ []).1, ?_, ?_, ?_⟩
  · calc (mergeTimeline hist fore).length
        ≤ (List.insertionSort timeLE (hist ++ fore)).length :=
          (dedupe_sublist _ []).length_le
      _ = (hist ++ fore).length := hperm.length_eq
  · exact List.Pairwise.sublist (dedupe_sublist _ []) hsorted
  · intro hnd
    have hnd2 : ((List.insertionSort timeLE (hist ++ fore)).map hourKey).Nodup :=
      (hperm.map hourKey).nodup_iff.mpr hnd
    rw [mergeTimeline, dedupe_eq_self _ [] hnd2 (by intro s _; simp)]
    exact hperm.length_eq

/-- C6 witness: the no-duplicate-keys part evaluated on a one-sample
historical list at 14:00 and a one-sample forecast list at 15:00. -/
theorem mergeTimeline_spec_witness :
    (mergeTimeline [⟨840, 3⟩] [⟨900, 5⟩]).length = (([⟨840, 3⟩] ++ [⟨900, 5⟩] : List Sample)).length :=
  (mergeTimeline_spec [⟨840, 3⟩] [⟨900, 5⟩]).2.2.2 (by decide)

/-- C3 amended: when the historical and forecast inputs each carry exactly
one sample with a given key, the merged output keeps, for that key, the
sample that comes first in the stable time sort: the historical one exactly
when its time is at most the forecast one's time (in particular on time
ties the historical sample wins; an earlier forecast time wins instead). -/
theorem mergeTimeline_earliest_wins (hist fore : List Sample) (k : ℕ × ℕ) (s1 s2 : Sample)
    (h1 : hist.filter (keyIs k) = [s1]) (h2 : fore.filter (keyIs k) = [s2])
    (hle : s1.time ≤ s2.time) :
    (mergeTimeline hist fore).filter (keyIs k) = [s1] := by
  rw [mergeTimeline, dedupe_filter k _ [], if_neg (List.not_mem_nil k),
    filter_insertionSort, List.filter_append, h1, h2]
  have hts : timeLE s1 s2 := hle
  simp [List.insertionSort, List.orderedInsert, hts]

/-- C3 witness: historical 14:00 uv 3 and forecast 14:30 uv 4 share the key
(1, 14) and the historical sample is kept. -/
theorem mergeTimeline_earliest_wins_witness :
    (mergeTimeline [⟨840, 3⟩] [⟨870, 4⟩]).filter (keyIs (1, 14)) = [⟨840, 3⟩] :=
  mergeTimeline_earliest_wins [⟨840, 3⟩] [⟨870, 4⟩] (1, 14) ⟨840, 3⟩ ⟨870, 4⟩
    (by decide) (by decide) (by decide)

/-- C3 counterexample: historical 14:30 uv 3 and forecast 14:00 uv 4 share
the key (1, 14), yet the merged output keeps the forecast sample, because
deduplication keeps the first sample in time-sorted order, not the first in
historical-then-forecast order. -/
theorem mergeTimeline_forecast_wins_cex :
    mergeTimeline [⟨870, 3⟩] [⟨840, 4⟩] = [⟨840, 4⟩] ∧
    hourKey ⟨870, 3⟩ = hourKey ⟨840, 4⟩ ∧ (⟨840, 4⟩ : Sample) ≠ ⟨870, 3⟩ := by
  refine ⟨?_, by decide, by decide⟩
  decide

/-- C10: estimateDayLength is a function of the date's day of year and the
location's latitude alone: two dates with equal getDayOfYear and two
locations with equal latitude (any longitudes) give identical results, and
getDayOfYear itself ignores the time of day within the date. -/
theorem estimateDayLength_doy_lat_only :
    (∀ (d1 d2 : DateL) (lat lng1 lng2 : ℝ), getDayOfYear d1 = getDayOfYear d2 →
      estimateDayLength d1 (some ⟨lat, lng1⟩) = estimateDayLength d2 (some ⟨lat, lng2⟩)) ∧
    (∀ a ms : ℤ, 0 ≤ ms → ms < 86400000 → getDayOfYear ⟨a, ms⟩ = getDayOfYear ⟨a, 0⟩) := by
  constructor
  · intro d1 d2 lat lng1 lng2 h
    rw [estimateDayLength, estimateDayLength, h]
    rfl
  · intro a ms h0 hlt
    unfold getDayOfYear toMs getFullYear
    dsimp only
    omega

/-- C10 witness: day 0 of year 0 and day 0 of year 1 share day of year 1
and latitude 40, with different longitudes. -/
theorem estimateDayLength_doy_lat_only_witness :
    estimateDayLength ⟨0, 0⟩ (some ⟨40, 7⟩) = estimateDayLength ⟨365, 0⟩ (some ⟨40, -3⟩) :=
  estimateDayLength_doy_lat_only.1 ⟨0, 0⟩ ⟨365, 0⟩ 40 7 (-3) (by decide)

lemma scanStep_eq_none (cand : ℤ → Option MatchResult) (acc : Option MatchResult) (k : ℤ) :
    scanStep cand acc k = none ↔ cand k = none ∧ acc = none := by
  rcases hc : cand k with _ | c
  · simp [scanStep, hc]
  · rcases acc with _ | m
    · simp [scanStep, hc]
    · simp only [scanStep, hc]
      constructor
      · intro h
        split at h <;> cases h
      · rintro ⟨-, h⟩
        cases h

lemma bestScan_append (cand : ℤ → Option MatchResult) (ks : List ℤ) (k : ℤ) :
    bestScan cand (ks ++ [k]) = scanStep cand (bestScan cand ks) k := by
  simp [bestScan, List.foldl_append]

lemma bestScan_none_iff (cand : ℤ → Option MatchResult) :
    ∀ ks : List ℤ, (bestScan cand ks = none ↔ ∀ k ∈ ks, cand k = none) := by
  intro ks
  induction ks using List.reverseRecOn with
  | nil => simp [bestScan]
  | append_singleton t k ih =>
    rw [bestScan_append, scanStep_eq_none, ih, List.forall_mem_append]
    simp [and_comm]

lemma bestScan_spec (cand : ℤ → Option MatchResult) :
    ∀ (ks : List ℤ) (m : MatchResult), bestScan cand ks = some m →
      ∃ ks₁ j ks₂, ks = ks₁ ++ j :: ks₂ ∧ cand j = some m ∧
        (∀ k ∈ ks, ∀ c, cand k = some c → m.difference ≤ c.difference) ∧
        (∀ k ∈ ks₁, ∀ c, cand k = some c → m.difference < c.difference) := by
  intro ks
  induction ks using List.reverseRecOn with
  | nil =>
    intro m h
    simp [bestScan] at h
  | append_singleton t k ih =>
    intro m h
    rw [bestScan_append] at h
    rcases hc : cand k with _ | c
    · simp only [scanStep, hc] at h
      obtain ⟨ks₁, j, ks₂, rfl, hj, hle, hstrict⟩ := ih m h
      refine ⟨ks₁, j, ks₂ ++ [k], by simp, hj, ?_, hstrict⟩
      intro x hx c2 hcx
      rcases List.mem_append.mp hx with hx | hx
      · exact hle x hx c2 hcx
      · rcases List.mem_singleton.mp hx with rfl
        rw [hc] at hcx
        cases hcx
    · rcases hb : bestScan cand t with _ | m0
      · simp only [scanStep, hc, hb] at h
        have hallnone := (bestScan_none_iff cand t).mp hb
        obtain rfl := Option.some.inj h
        refine ⟨t, k, [], rfl, hc, ?_, ?_⟩
        · intro x hx c2 hcx
          rcases List.mem_append.mp hx with hx | hx
          · rw [hallnone x hx] at hcx
            cases hcx
          · rcases List.mem_singleton.mp hx with rfl
            rw [hc] at hcx
            obtain rfl := Option.some.inj hcx
            exact le_refl _
        · intro x hx c2 hcx
          rw [hallnone x hx] at hcx
          cases hcx
      · simp only [scanStep, hc, hb] at h
        by_cases hlt2 : c.difference < m0.difference
        · rw [if_pos hlt2] at h
          obtain rfl := Option.some.inj h
          obtain ⟨ks₁, j, ks₂, heq, hj, hle, hstrict⟩ := ih m0 hb
          refine ⟨t, k, [], rfl, hc, ?_, ?_⟩
          · intro x hx c2 hcx
            rcases List.mem_append.mp hx with hx | hx
            · exact le_trans (le_of_lt hlt2) (hle x hx c2 hcx)
            · rcases List.mem_singleton.mp hx with rfl
              rw [hc] at hcx
              obtain rfl := Option.some.inj hcx
              exact le_refl _
          · intro x hx c2 hcx
            exact lt_of_lt_of_le hlt2 (hle x hx c2 hcx)
        · rw [if_neg hlt2] at h
          obtain rfl := Option.some.inj h
          obtain ⟨ks₁, j, ks₂, heq, hj, hle, hstrict⟩ := ih m0 hb
          refine ⟨ks₁, j, ks₂ ++ [k], by rw [heq]; simp, hj, ?_, hstrict⟩
          intro x hx c2 hcx
          rcases List.mem_append.mp hx with hx | hx
          · exact hle x hx c2 hcx
          · rcases List.mem_singleton.mp hx with rfl
            rw [hc] at hcx
            obtain rfl := Option.some.inj hcx
            exact not_lt.mp hlt2

lemma estimateDayLengthCore_equator (doy : ℤ) (lng : ℝ) :
    estimateDayLengthCore doy (some ⟨0, lng⟩) ≠ none := by
  simp only [estimateDayLengthCore, Option.getD_some]
  have hz : (⟨0, lng⟩ : Location).lat * Real.pi / 180 = 0 := by
    dsimp only
    ring
  rw [hz, Real.tan_zero, zero_mul, neg_zero, if_pos (by norm_num)]
  simp

lemma candidateAt_equator_ne_none (target : ℤ) (lng : ℝ) (today : DateL) (duss k : ℤ) :
    candidateAt target (some ⟨0, lng⟩) today duss k ≠ none := by
  rw [candidateAt]
  cases h : estimateDayLength ⟨today.absDay + (duss + k), today.msOfDay⟩ (some ⟨0, lng⟩) with
  | none => exact absurd h (estimateDayLengthCore_equator _ lng)
  | some tdl => simp

/-- C4: when the target totalMinutes is nonzero (the guard passes) and every
scanned candidate in the 185-day post-solstice window has a well-defined
day length, findMatchingDayLength returns exactly the candidate whose
difference is minimal over the window, and among equal minima the earliest
scanned one (every earlier index has a strictly larger difference, matching
the strict < update). -/
theorem findMatchingDayLength_argmin (dl : DayLength) (location : Option Location) (today : DateL)
    (hnz : dl.totalMinutes ≠ 0)
    (hdef : ∀ k ∈ scanKeys, candidateAt dl.totalMinutes location today (dussOf today) k ≠ none) :
    ∃ (m : MatchResult) (ks₁ : List ℤ) (j : ℤ) (ks₂ : List ℤ),
      findMatchingDayLength (some dl) location today = some m ∧
      scanKeys = ks₁ ++ j :: ks₂ ∧
      candidateAt dl.totalMinutes location today (dussOf today) j = some m ∧
      (∀ k ∈ scanKeys, ∀ c,
        candidateAt dl.totalMinutes location today (dussOf today) k = some c →
          m.difference ≤ c.difference) ∧
      (∀ k ∈ ks₁, ∀ c,
        candidateAt dl.totalMinutes location today (dussOf today) k = some c →
          m.difference < c.difference) := by
  have hres : findMatchingDayLength (some dl) location today =
      bestScan (candidateAt dl.totalMinutes location today (dussOf today)) scanKeys := by
    simp only [findMatchingDayLength, if_neg hnz]
  rcases hb : bestScan (candidateAt dl.totalMinutes location today (dussOf today)) scanKeys
    with _ | m
  · exact absurd ((bestScan_none_iff _ _).mp hb 1 (by decide)) (hdef 1 (by decide))
  · obtain ⟨ks₁, j, ks₂, heq, hj, hle, hstrict⟩ := bestScan_spec _ scanKeys m hb
    exact ⟨m, ks₁, j, ks₂, by rw [hres, hb], heq, hj, hle, hstrict⟩

/-- C4 witness: the theorem applied at the equator (every scanned candidate
is defined there) with target 720 minutes. -/
theorem findMatchingDayLength_argmin_witness :
    ∃ m : MatchResult, findMatchingDayLength (some ⟨12, 0, 720⟩) (some ⟨0, 5⟩) ⟨100, 0⟩ = some m := by
  obtain ⟨m, _, _, _, hm, -⟩ := findMatchingDayLength_argmin ⟨12, 0, 720⟩ (some ⟨0, 5⟩) ⟨100, 0⟩
    (by decide) (fun k _ => candidateAt_equator_ne_none 720 5 ⟨100, 0⟩ (dussOf ⟨100, 0⟩) k)
  exact ⟨m, hm⟩

/-- C5 amended: findMatchingDayLength returns a match whenever the target
totalMinutes is nonzero (the falsy-zero guard passes) and at least one
scanned candidate has a well-defined day length; it returns none for a
zero target and at polar latitudes where every scanned day length is NaN. -/
theorem findMatchingDayLength_some_of_defined (dl : DayLength) (location : Option Location)
    (today : DateL) (hnz : dl.totalMinutes ≠ 0)
    (hdef : ∃ k ∈ scanKeys, candidateAt dl.totalMinutes location today (dussOf today) k ≠ none) :
    findMatchingDayLength (some dl) location today ≠ none := by
  simp only [findMatchingDayLength, if_neg hnz]
  obtain ⟨k, hk, hkd⟩ := hdef
  intro hnone
  exact hkd ((bestScan_none_iff _ scanKeys).mp hnone k hk)

/-- C5 witness: a nonzero 720-minute target at the equator yields a match. -/
theorem findMatchingDayLength_some_of_defined_witness :
    findMatchingDayLength (some ⟨12, 0, 720⟩) (some ⟨0, 0⟩) ⟨0, 0⟩ ≠ none :=
  findMatchingDayLength_some_of_defined ⟨12, 0, 720⟩ (some ⟨0, 0⟩) ⟨0, 0⟩ (by decide)
    ⟨1, by decide, candidateAt_equator_ne_none 720 0 ⟨0, 0⟩ (dussOf ⟨0, 0⟩) 1⟩

/-- C5 counterexample: a well-typed day length with totalMinutes 0 (falsy
in JS) makes findMatchingDayLength return none immediately, so the function
does not return a match for every well-typed target. -/
theorem findMatchingDayLength_zero_target_cex :
    findMatchingDayLength (some ⟨0, 0, 0⟩) (some ⟨40.7128, -74.0060⟩) ⟨738000, 0⟩ = none := by
  simp [findMatchingDayLength]

end SunThing
